import Mathlib

/-!
# Verification of the AgenticArxiv asset-caching / task-orchestration core

Shallow embedding of the Python sources under `AgenticArxiv/` into Lean 4:

* `models/store.py` — `InMemoryStore` session memory and reference resolution
  (`set_last_papers`, `get_last_papers`, `set_last_active_paper_id`,
  `get_last_active_paper_id`, `resolve_paper`, `_REF_RE`).
* `utils/pdf_translator.py` — `_extract_progress` with its four regexes, the
  monotone progress filter of `on_text`, and the callback trace of
  `run_pdf2zh_translate`.
* `utils/pdf_downloader.py` — `safe_filename`, `normalize_arxiv_pdf_url`,
  `acquire_lock` / `release_lock`, `_looks_like_pdf`, `download_pdf`.
* `tools/pdf_download_tool.py` — `download_arxiv_pdf`.

Modelling conventions:
* Python `str` is modelled as `List Char`, bytes as `List Nat`.
* `datetime.now()` is an explicit `Nat` tick parameter `now`; `timedelta`
  comparison `(now - t) > ttl` uses truncated `Nat` subtraction, which agrees
  with the Python comparison for a monotone clock.
* Python `dict` and the filesystem directory are association lists with
  first-match lookup (`alookup` / `ainsert` / `aremove`).
* Python `float` progress values are modelled as `ℚ`: every value produced by
  the code is an exact small rational (`v/100`, clamped `i/n`) on which binary
  floating point is order-isomorphic to the rational order.
* Effectful code is explicit state passing; `raise` is an `Except` error.
* Character classes of the `re` patterns (`\d`, `\s`, `\w`, lowercasing) are
  modelled at their ASCII meaning, which is exact on every input the
  repository feeds them.
-/

namespace AgenticArxiv

/-! ## Association lists (Python `dict` / directory model) -/

def alookup {α β : Type} [DecidableEq α] (k : α) : List (α × β) → Option β
  | [] => none
  | (k', v) :: rest => if k' = k then some v else alookup k rest

def ainsert {α β : Type} [DecidableEq α] (k : α) (v : β) : List (α × β) → List (α × β)
  | [] => [(k, v)]
  | (k', v') :: rest => if k' = k then (k, v) :: rest else (k', v') :: ainsert k v rest

def aremove {α β : Type} [DecidableEq α] (k : α) : List (α × β) → List (α × β)
  | [] => []
  | (k', v') :: rest => if k' = k then aremove k rest else (k', v') :: aremove k rest

/-! ## Python string helpers -/

/-- The character class `\s` of Python `re` (ASCII part), also the default
strip set of `str.strip()`. -/
def isPySpace (c : Char) : Bool :=
  c == ' ' || c == '\t' || c == '\n' || c == '\r' || c == '\x0b' || c == '\x0c'

/-- Python `str.strip()` (whitespace at both ends). -/
def pyStrip (s : List Char) : List Char :=
  ((s.dropWhile isPySpace).reverse.dropWhile isPySpace).reverse

/-- Numeric value of a digit string, as computed by Python `int(...)`. -/
def digitsVal (ds : List Char) : Nat :=
  ds.foldl (fun a c => 10 * a + (c.toNat - '0'.toNat)) 0

/-- Python `needle in hay` for strings (contiguous substring test). -/
def strContains (hay needle : List Char) : Bool :=
  (List.range (hay.length + 1)).any (fun i => ((hay.drop i).take needle.length) == needle)

/-- Python `str.lower()` (ASCII case folding; CJK characters are untouched in
both models). -/
def lowerL (s : List Char) : List Char :=
  s.map Char.toLower

/-! ## Data model: `Paper`, `SessionState`, the store

`Paper` is collaborator-owned (spec §3); only the fields read by the embedded
code are kept (`id`, `title`, `pdf_url`). -/

structure Paper where
  id : List Char
  title : Option (List Char)
  pdf_url : Option (List Char)
deriving DecidableEq

/-- `SessionState` of `models/schemas.py` (fields as read and written by
`models/store.py`). -/
structure SessionState where
  session_id : List Char
  last_papers : List Paper
  last_active_paper_id : Option (List Char)
  updated_at : Nat
  last_active_at : Option Nat
deriving DecidableEq

/-- `PdfAsset` of `models/pdf_cache.py` (status values from spec §3). -/
inductive AssetStatus
  | DOWNLOADING
  | READY
  | FAILED
deriving DecidableEq

structure PdfAsset where
  paper_id : List Char
  pdf_url : List Char
  local_path : List Char
  status : AssetStatus
  size_bytes : Nat
  sha256 : Option (List Char)
  downloaded_at : Option Nat
  error : Option (List Char)
deriving DecidableEq

/-- The mutable state of `InMemoryStore` (sessions plus the raw-PDF cache
index; `ttl` in the same tick unit as `now`, `max_papers` as configured). -/
structure Store where
  sessions : List (List Char × SessionState)
  ttl : Nat
  max_papers : Nat
  pdf_cache : List (List Char × PdfAsset)
deriving DecidableEq

/-- Modelled from the spec: the construction defaults of `SessionState`
(`models/schemas.py` is not under `src/`). Spec §3: created lazily on first
touch, `last_papers` empty, no last-active paper. `updated_at` starts at the
creation instant, matching its unconditional use in `get_last_papers`. -/
def newSession (sid : List Char) (now : Nat) : SessionState :=
  { session_id := sid
    last_papers := []
    last_active_paper_id := none
    updated_at := now
    last_active_at := none }

/-- `InMemoryStore.set_last_papers`: truncate to `max_papers`, reset
`updated_at`. (`_get_or_create_session` followed by the field updates
collapses to a single keyed insert.) -/
def set_last_papers (st : Store) (sid : List Char) (papers : List Paper) (now : Nat) : Store :=
  let ss := (alookup sid st.sessions).getD (newSession sid now)
  let ss2 := { ss with last_papers := papers.take st.max_papers, updated_at := now }
  { st with sessions := ainsert sid ss2 st.sessions }

/-- `InMemoryStore.get_last_papers`: lazy TTL expiry clears `last_papers`
in place and returns the (now empty) list. -/
def get_last_papers (st : Store) (sid : List Char) (now : Nat) : List Paper × Store :=
  match alookup sid st.sessions with
  | none => ([], st)
  | some ss =>
    if now - ss.updated_at > st.ttl then
      let ss2 := { ss with last_papers := ([] : List Paper) }
      ([], { st with sessions := ainsert sid ss2 st.sessions })
    else
      (ss.last_papers, st)

/-- `InMemoryStore.set_last_active_paper_id`: no-op on a falsy (empty) id. -/
def set_last_active_paper_id (st : Store) (sid : List Char) (pid : List Char) (now : Nat) :
    Store :=
  if pid.isEmpty then st
  else
    let ss := (alookup sid st.sessions).getD (newSession sid now)
    let ss2 := { ss with last_active_paper_id := some pid, last_active_at := some now,
                         updated_at := now }
    { st with sessions := ainsert sid ss2 st.sessions }

/-- `InMemoryStore.get_last_active_paper_id`: independent TTL check against
`last_active_at`; an expired read clears the field. -/
def get_last_active_paper_id (st : Store) (sid : List Char) (now : Nat) :
    Option (List Char) × Store :=
  match alookup sid st.sessions with
  | none => (none, st)
  | some ss =>
    match ss.last_active_at with
    | some t =>
      if now - t > st.ttl then
        let ss2 := { ss with last_active_paper_id := (none : Option (List Char)),
                             last_active_at := (none : Option Nat) }
        (none, { st with sessions := ainsert sid ss2 st.sessions })
      else
        (ss.last_active_paper_id, st)
    | none => (ss.last_active_paper_id, st)

/-- The polymorphic `ref` argument of `resolve_paper`
(`Union[str, int, None]`). -/
inductive Ref
  | null
  | int (n : Int)
  | str (s : List Char)

/-- `_REF_RE.fullmatch` of `models/store.py`:
`(?:第)?\s*(\d+)\s*(?:篇)?` against the whole string, returning the numeric
value of the digit group. The regex backtracking is deterministic here:
each optional/star piece is forced by the following mandatory piece. -/
def refFullmatch (s : List Char) : Option Nat :=
  let s1 := if s.head? = some '第' then s.drop 1 else s
  let s2 := s1.dropWhile isPySpace
  let ds := s2.takeWhile Char.isDigit
  if ds.isEmpty then none
  else
    let s3 := (s2.dropWhile Char.isDigit).dropWhile isPySpace
    let s4 := if s3.head? = some '篇' then s3.drop 1 else s3
    if s4.isEmpty then some (digitsVal ds) else none

/-- `InMemoryStore.resolve_paper`: resolution from the session's
`last_papers`; never raises (total, returns an `Option`). -/
def resolve_paper (st : Store) (sid : List Char) (ref : Ref) (now : Nat) :
    Option Paper × Store :=
  let pr := get_last_papers st sid now
  if pr.1.isEmpty then (none, pr.2)
  else
    match ref with
    | .null =>
      let ar := get_last_active_paper_id pr.2 sid now
      match ar.1 with
      | none => (none, ar.2)
      | some lid =>
        if lid.isEmpty then (none, ar.2)
        else (pr.1.find? (fun q => q.id == lid), ar.2)
    | .int n =>
      (if 0 ≤ n - 1 then pr.1[(n - 1).toNat]? else none, pr.2)
    | .str s =>
      let s1 := pyStrip s
      match refFullmatch s1 with
      | some d =>
        (if 0 ≤ (d : Int) - 1 then pr.1[((d : Int) - 1).toNat]? else none, pr.2)
      | none =>
        match pr.1.find? (fun q => q.id == s1) with
        | some q => (some q, pr.2)
        | none =>
          (pr.1.find? (fun q => strContains (lowerL (q.title.getD [])) (lowerL s1)), pr.2)

/-! ## `utils/pdf_translator.py`: progress extraction

The four module-level regexes are modelled as searchers over `List Char`.
`searchAux` scans candidate start positions left to right (Python `re.search`
leftmost-match), carrying the previous character for lookbehind assertions.
Greedy/backtracking behaviour is resolved where it is provably deterministic
(a shorter digit group always leaves a digit where the following literal is
required). -/

def searchAux {α : Type} (f : Option Char → List Char → Option α) :
    Option Char → List Char → Option α
  | prev, [] => f prev []
  | prev, c :: rest =>
    match f prev (c :: rest) with
    | some x => some x
    | none => searchAux f (some c) rest

/-- The candidate splits of a greedy `(\d{1,3})` group at the current
position, longest first. -/
def digitSplits13 (s : List Char) : List (List Char × List Char) :=
  let n := min 3 (s.takeWhile Char.isDigit).length
  (List.range n).map (fun j => (s.take (n - j), s.drop (n - j)))

/-- `_TQDM_PERCENT_RE = (\d{1,3})%\|`, at one position. -/
def tqdmAt (s : List Char) : Option Nat :=
  (digitSplits13 s).findSome? (fun p =>
    if p.2.take 2 = ['%', '|'] then some (digitsVal p.1) else none)

/-- `_TQDM_PERCENT_RE.search`, returning the numeric value of the group. -/
def tqdmSearch (s : List Char) : Option Nat :=
  searchAux (fun _ t => tqdmAt t) none s

/-- `_PLAIN_PERCENT_RE = (?<!\d)(\d{1,3})%(?!\d)`, at one position. -/
def plainAt (prev : Option Char) (s : List Char) : Option Nat :=
  if prev.any Char.isDigit then none
  else
    (digitSplits13 s).findSome? (fun p =>
      match p.2 with
      | '%' :: rest2 =>
        if rest2.head?.any Char.isDigit then none else some (digitsVal p.1)
      | _ => none)

/-- `_PLAIN_PERCENT_RE.search`. -/
def plainSearch (s : List Char) : Option Nat :=
  searchAux plainAt none s

/-- The character class `\w` of Python `re` (ASCII part). -/
def isWordChar (c : Char) : Bool :=
  c.isAlphanum || c == '_'

/-- The core `(\d+)\s*/\s*(\d+)` of `_PAGE_RE` / `_FRACTION_RE` at one
position (both `\d+` groups greedy, hence maximal runs; `\s*` is forced by
the following literal). -/
def fracCoreAt (s : List Char) : Option (Nat × Nat) :=
  let ds := s.takeWhile Char.isDigit
  if ds.isEmpty then none
  else
    let t1 := (s.dropWhile Char.isDigit).dropWhile isPySpace
    match t1 with
    | '/' :: t2 =>
      let t3 := t2.dropWhile isPySpace
      let ns := t3.takeWhile Char.isDigit
      if ns.isEmpty then none else some (digitsVal ds, digitsVal ns)
    | _ => none

/-- `(?i)\bpage(?:s)?\b` at one position: on success returns the remainder of
the text after the matched word. -/
def pageHeadAt (prev : Option Char) (s : List Char) : Option (List Char) :=
  if prev.any isWordChar then none
  else
    match s with
    | p :: a :: g :: e :: rest =>
      if p.toLower == 'p' && a.toLower == 'a' && g.toLower == 'g' && e.toLower == 'e' then
        match rest with
        | c :: rest2 =>
          if c.toLower == 's' then
            if rest2.head?.any isWordChar then none else some rest2
          else if isWordChar c then none
          else some rest
        | [] => some []
      else none
    | _ => none

/-- The lazy `.*?(\d+)\s*/\s*(\d+)` tail of `_PAGE_RE`: the nearest following
fraction, with `.` not crossing a newline. -/
def fracScanLazy : List Char → Option (Nat × Nat)
  | [] => none
  | c :: rest =>
    match fracCoreAt (c :: rest) with
    | some r => some r
    | none => if c = '\n' then none else fracScanLazy rest

/-- `_PAGE_RE = (?i)\bpage(?:s)?\b.*?(\d+)\s*/\s*(\d+)`, `re.search`. -/
def pageSearch (s : List Char) : Option (Nat × Nat) :=
  searchAux (fun prev t => (pageHeadAt prev t).bind fracScanLazy) none s

/-- `_FRACTION_RE = (?<!\d)(\d+)\s*/\s*(\d+)(?!\d)`, `re.search` (the
trailing lookahead is automatic because the greedy second group is a maximal
digit run). -/
def fractionSearch (s : List Char) : Option (Nat × Nat) :=
  searchAux (fun prev t => if prev.any Char.isDigit then none else fracCoreAt t) none s

/-- `_extract_progress`: transcription of the sequential early-return
structure (a matched percentage outside `0..=100` or a fraction with a zero
denominator falls through to the next recognizer). `0 <= v` of the Python
guard is automatic for `Nat`. -/
def _extract_progress (s : List Char) : Option ℚ :=
  if s.isEmpty then none
  else
    let step4 : Option ℚ :=
      match fractionSearch s with
      | some r => if 0 < r.2 then some (max 0 (min 1 ((r.1 : ℚ) / (r.2 : ℚ)))) else none
      | none => none
    let step3 : Option ℚ :=
      match pageSearch s with
      | some r => if 0 < r.2 then some (max 0 (min 1 ((r.1 : ℚ) / (r.2 : ℚ)))) else step4
      | none => step4
    let step2 : Option ℚ :=
      match plainSearch s with
      | some v => if v ≤ 100 then some ((v : ℚ) / 100) else step3
      | none => step3
    match tqdmSearch s with
    | some v => if v ≤ 100 then some ((v : ℚ) / 100) else step2
    | none => step2

/-- One recognizer with its guard, percentage form, following the spec's
wording for recognizers (a) and (b). -/
def pctCandidate (o : Option Nat) : Option ℚ :=
  o.bind (fun v => if v ≤ 100 then some ((v : ℚ) / 100) else none)

/-- One recognizer with its guard, fraction form, following the spec's
wording for recognizers (c) and (d) (result clamped to `[0,1]`). -/
def fracCandidate (o : Option (Nat × Nat)) : Option ℚ :=
  o.bind (fun r => if 0 < r.2 then some (max 0 (min 1 ((r.1 : ℚ) / (r.2 : ℚ)))) else none)

/-- The spec's description of progress extraction (§4.4): four recognizers
tried in priority order, first produced value wins, none otherwise. -/
def extractSpecChain (s : List Char) : Option ℚ :=
  (pctCandidate (tqdmSearch s)).orElse (fun _ =>
    (pctCandidate (plainSearch s)).orElse (fun _ =>
      (fracCandidate (pageSearch s)).orElse (fun _ =>
        fracCandidate (fractionSearch s))))

/-- The `on_text` closure of `run_pdf2zh_translate`, restricted to its
progress effect: from the previous `last_p` and one text chunk, the new
`last_p` and the values passed to `progress_cb` (one or none). The Python
guard is `last_p is None or p > last_p`. -/
def on_text_progress (lastP : Option ℚ) (text : List Char) : Option ℚ × List ℚ :=
  match _extract_progress text with
  | none => (lastP, [])
  | some p =>
    match lastP with
    | none => (some p, [p])
    | some q => if q < p then (some p, [p]) else (some q, [])

/-- The concatenated `progress_cb` values produced by feeding a sequence of
chunks through `on_text`. -/
def processLines (lastP : Option ℚ) : List (List Char) → List ℚ
  | [] => []
  | t :: ts =>
    let r := on_text_progress lastP t
    r.2 ++ processLines r.1 ts

/-- The full sequence of progress values `run_pdf2zh_translate` passes to
`progress_cb`: `0.0` before the subprocess starts, the `on_text` emissions
for each demultiplexed chunk, and a final `1.0` exactly when the run
succeeds (zero exit code and mono output present). Exceptions raised by the
callback itself are swallowed and do not change the passed values. -/
def run_pdf2zh_progress_trace (chunks : List (List Char)) (success : Bool) : List ℚ :=
  (0 : ℚ) :: (processLines none chunks ++ if success then [(1 : ℚ)] else [])

/-! ## `utils/pdf_downloader.py` and `tools/pdf_download_tool.py` -/

/-- The filesystem directory relevant to a download: destination, `.part`
and `.lock` files, keyed by path, value = byte content. -/
abbrev FS := List (List Char × List Nat)

def fsRead (p : List Char) (fs : FS) : Option (List Nat) := alookup p fs

def fsWrite (p : List Char) (b : List Nat) (fs : FS) : FS := ainsert p b fs

def fsRemove (p : List Char) (fs : FS) : FS := aremove p fs

/-- `[^A-Za-z0-9._-]` complement, i.e. the characters `_SAFE_FILENAME_RE`
leaves alone. -/
def isSafeFilenameChar (c : Char) : Bool :=
  c.isAlphanum || c == '.' || c == '_' || c == '-'

/-- `_SAFE_FILENAME_RE.sub("_", name)`: every maximal run of unsafe
characters collapses to a single underscore. -/
def collapseUnsafe : Bool → List Char → List Char
  | _, [] => []
  | prevUnsafe, c :: rest =>
    if isSafeFilenameChar c then c :: collapseUnsafe false rest
    else if prevUnsafe then collapseUnsafe true rest
    else '_' :: collapseUnsafe true rest

/-- `safe_filename`: substitute, then `.strip("_")`. -/
def safe_filename (name : List Char) : List Char :=
  (((collapseUnsafe false name).dropWhile (· == '_')).reverse.dropWhile (· == '_')).reverse

structure UrlParts where
  scheme : List Char
  netloc : List Char
  path : List Char
  query : List Char
  fragment : List Char
deriving DecidableEq

def splitOnFirst (c : Char) (s : List Char) : List Char × Option (List Char) :=
  match s.findIdx? (· == c) with
  | none => (s, none)
  | some i => (s.take i, some (s.drop (i + 1)))

def isSchemeChar (c : Char) : Bool :=
  c.isAlphanum || c == '+' || c == '-' || c == '.'

/-- Model of `urllib.parse.urlparse` restricted to URLs without `;params`
(all URLs this repository builds): split `scheme:`, `//netloc`, path,
`?query`, `#fragment`; the scheme is lowercased. -/
def urlparseM (u : List Char) : UrlParts :=
  let sp := splitOnFirst ':' u
  let hasScheme :=
    sp.2.isSome && !sp.1.isEmpty && sp.1.head?.any Char.isAlpha && sp.1.all isSchemeChar
  let scheme := if hasScheme then lowerL sp.1 else []
  let rest := if hasScheme then sp.2.getD [] else u
  let hasNetloc := rest.take 2 = ['/', '/']
  let r := if hasNetloc then rest.drop 2 else rest
  let i := if hasNetloc then
      ((r.findIdx? (fun c => c == '/' || c == '?' || c == '#')).getD r.length)
    else 0
  let netloc := r.take i
  let rest2 := r.drop i
  let fr := splitOnFirst '#' rest2
  let qu := splitOnFirst '?' fr.1
  { scheme := scheme, netloc := netloc, path := qu.1,
    query := (qu.2.getD []), fragment := (fr.2.getD []) }

/-- Model of `urllib.parse.urlunparse` on the same restriction. -/
def urlunparseM (p : UrlParts) : List Char :=
  let u0 := p.path
  let u1 :=
    if ¬ p.netloc.isEmpty ∨ u0.take 2 = ['/', '/'] then
      let u0' := if ¬ u0.isEmpty ∧ u0.head? ≠ some '/' then '/' :: u0 else u0
      ['/', '/'] ++ p.netloc ++ u0'
    else u0
  let u2 := if ¬ p.scheme.isEmpty then p.scheme ++ [':'] ++ u1 else u1
  let u3 := if ¬ p.query.isEmpty then u2 ++ ['?'] ++ p.query else u2
  if ¬ p.fragment.isEmpty then u3 ++ ['#'] ++ p.fragment else u3

/-- Errors raised by the embedded download code; the constructor payload is
the Python exception message (`str(e)`). -/
inductive PyErr
  | valueErr (msg : List Char)
  | lockBusy (msg : List Char)
  | httpErr (msg : List Char)
  | notPdf (msg : List Char)
deriving DecidableEq

def errMsg : PyErr → List Char
  | .valueErr m => m
  | .lockBusy m => m
  | .httpErr m => m
  | .notPdf m => m

def endsWithL (s suffixChars : List Char) : Bool :=
  decide (suffixChars.length ≤ s.length) &&
    (s.drop (s.length - suffixChars.length) == suffixChars)

def rstripSlash (s : List Char) : List Char :=
  (s.reverse.dropWhile (· == '/')).reverse

/-- `normalize_arxiv_pdf_url`: empty (after strip) raises `ValueError`; else
the path is right-stripped of `/` and forced to end in `.pdf`. -/
def normalize_arxiv_pdf_url (url : List Char) : Except PyErr (List Char) :=
  let u := pyStrip url
  if u.isEmpty then .error (.valueErr "pdf_url 为空".toList)
  else
    let p := urlparseM u
    let path1 := rstripSlash p.path
    let path2 := if endsWithL path1 ".pdf".toList then path1 else path1 ++ ".pdf".toList
    .ok (urlunparseM { p with path := path2 })

/-- `acquire_lock` under the sequential (single caller at a time) semantics
of this embedding: no concurrent process can release the lock between the
fixed-delay retries, so the bounded retry loop collapses to a single
exclusive-create attempt; a held lock means `RuntimeError` (lock busy), an
absent one is created empty. -/
def acquire_lock (fs : FS) (lock_path : List Char) : Except PyErr FS :=
  if (fsRead lock_path fs).isSome then
    .error (.lockBusy ("获取下载锁失败: ".toList ++ lock_path))
  else .ok (fsWrite lock_path [] fs)

/-- `release_lock`: remove the lock file if present, swallow errors. -/
def release_lock (fs : FS) (lock_path : List Char) : FS := fsRemove lock_path fs

def pdfMagic : List Nat := [37, 80, 68, 70]

/-- The `%PDF` test applied to a byte string: `read(5)` then
`startswith(b"%PDF")`. -/
def looksLikePdfBytes (b : List Nat) : Bool := (b.take 5).take 4 == pdfMagic

/-- `_looks_like_pdf`: read the first bytes of the file at `path`; an
unreadable file counts as not-a-PDF (the `except` branch). -/
def _looks_like_pdf (fs : FS) (path : List Char) : Bool :=
  match fsRead path fs with
  | none => false
  | some b => looksLikePdfBytes b

/-- The environment of a download run: the network (`requests.get` after
redirects — `some body` for an HTTP success, `none` when `raise_for_status`
raises), the SHA-256 hex digest function (kept abstract), the clock tick and
`settings.pdf_raw_path`. -/
structure DlEnv where
  net : List Char → Option (List Nat)
  hashFn : List Nat → List Char
  now : Nat
  pdf_raw_path : List Char

/-- `download_pdf`: remove a stale `.part`, fetch, stream to `.part`,
validate (minimum size 1024 and `%PDF` magic), atomically rename into place.
Returns `(size_bytes, sha256_hex)` or the raised error, with the filesystem
after the call. -/
def download_pdf (env : DlEnv) (url dest_path : List Char) (fs : FS) :
    Except PyErr (Nat × List Char) × FS :=
  let tmp_path := dest_path ++ ".part".toList
  let fs1 := fsRemove tmp_path fs
  match env.net url with
  | none => (.error (.httpErr "HTTPError".toList), fs1)
  | some body =>
    let fs2 := fsWrite tmp_path body fs1
    let size := body.length
    if size < 1024 ∨ _looks_like_pdf fs2 tmp_path = false then
      (.error (.notPdf "下载结果不像有效 PDF".toList), fsRemove tmp_path fs2)
    else
      (.ok (size, env.hashFn body), fsWrite dest_path body (fsRemove tmp_path fs2))

/-- Modelled from the spec: `PdfCacheIndex.get` of `models/pdf_cache.py`
(file not under `src/`; spec §4.2): pure lookup, no disk access. -/
def cacheGet (pid : List Char) (c : List (List Char × PdfAsset)) : Option PdfAsset :=
  alookup pid c

/-- Modelled from the spec: `PdfCacheIndex.upsert` (spec §4.2): replaces the
whole record for its key. Synchronous persistence is the identity on the
in-memory view and is not observed by any claim. -/
def cacheUpsert (a : PdfAsset) (c : List (List Char × PdfAsset)) :
    List (List Char × PdfAsset) :=
  ainsert a.paper_id a c

/-- Modelled from the spec: `PdfCacheIndex.update` (spec §4.2): merges named
fields into an existing record, no-op when the key is absent. Each call site
passes its named-field patch as the corresponding record update. -/
def cacheUpdate (pid : List Char) (f : PdfAsset → PdfAsset)
    (c : List (List Char × PdfAsset)) : List (List Char × PdfAsset) :=
  match alookup pid c with
  | none => c
  | some a => ainsert pid (f a) c

def _fallback_pdf_url (pid : List Char) : List Char :=
  "https://arxiv.org/pdf/".toList ++ pid ++ ".pdf".toList

/-- `os.path.join` for a relative, separator-free second component. -/
def pathJoin (a b : List Char) : List Char :=
  if a.isEmpty then b
  else if a.getLast? = some '/' then a ++ b
  else a ++ ['/'] ++ b

/-- The reference-resolution prefix of `download_arxiv_pdf` (everything up
to fixing `paper_id` and the raw `pdf_url`), threading the store. -/
def dlResolve (st : Store) (sid : List Char) (ref : Ref) (now : Nat) :
    Except PyErr (List Char × List Char × Store) :=
  match ref with
  | .null =>
    let ar := get_last_active_paper_id st sid now
    match ar.1 with
    | none => .error (.valueErr "未找到指代对象".toList)
    | some lid =>
      if lid.isEmpty then .error (.valueErr "未找到指代对象".toList)
      else
        let pr := resolve_paper ar.2 sid (.str lid) now
        let fromPaper := (pr.1.bind (fun p => p.pdf_url)).getD []
        let pu := if fromPaper.isEmpty then _fallback_pdf_url lid else fromPaper
        .ok (lid, pu, pr.2)
  | _ =>
    let pr := resolve_paper st sid ref now
    match pr.1 with
    | none => .error (.valueErr "未找到论文".toList)
    | some p =>
      let fromPaper := p.pdf_url.getD []
      let pu := if fromPaper.isEmpty then _fallback_pdf_url p.id else fromPaper
      .ok (p.id, pu, pr.2)

/-- The result dictionary of a successful `download_arxiv_pdf`
(`size_bytes` / `sha256` keys only present on the slow path). -/
structure DlOk where
  session_id : List Char
  paper_id : List Char
  pdf_url : List Char
  local_path : List Char
  status : AssetStatus
  existed : Bool
  size_bytes : Option Nat
  sha256 : Option (List Char)
deriving DecidableEq

/-- Everything observable after a `download_arxiv_pdf` call: the returned
dictionary or the propagated exception, the store, the filesystem, and the
list of URLs for which network I/O was attempted. -/
structure DlOutcome where
  result : Except PyErr DlOk
  store : Store
  fs : FS
  fetched : List (List Char)

/-- The destination path `download_arxiv_pdf` computes for a paper id. -/
def localPathOf (env : DlEnv) (pid : List Char) : List Char :=
  pathJoin env.pdf_raw_path (safe_filename pid ++ ".pdf".toList)

/-- `download_arxiv_pdf` of `tools/pdf_download_tool.py`: resolve, record
last-active, normalize the URL, fast path on an existing non-empty file
without `force`, else lock / mark DOWNLOADING / download / mark READY or
FAILED, releasing the lock on every exit of the `try`. -/
def download_arxiv_pdf (env : DlEnv) (st : Store) (fs : FS) (sid : List Char)
    (ref : Ref) (force : Bool) : DlOutcome :=
  match dlResolve st sid ref env.now with
  | .error e => ⟨.error e, st, fs, []⟩
  | .ok (pid, pu, st1) =>
    let st2 := set_last_active_paper_id st1 sid pid env.now
    match normalize_arxiv_pdf_url pu with
    | .error e => ⟨.error e, st2, fs, []⟩
    | .ok pdfUrl =>
      let local_path := localPathOf env pid
      let existed := (fsRead local_path fs).any (fun b => !b.isEmpty)
      let asset0 := cacheGet pid st2.pdf_cache
      if existed && !force then
        let st3 :=
          match asset0 with
          | none =>
            let a : PdfAsset :=
              { paper_id := pid, pdf_url := pdfUrl, local_path := local_path,
                status := .READY,
                size_bytes := ((fsRead local_path fs).map List.length).getD 0,
                sha256 := none, downloaded_at := some env.now, error := none }
            { st2 with pdf_cache := cacheUpsert a st2.pdf_cache }
          | some a =>
            if a.status ≠ AssetStatus.READY then
              let upd := fun (b : PdfAsset) =>
                { b with status := AssetStatus.READY, local_path := local_path,
                         pdf_url := pdfUrl,
                         size_bytes := ((fsRead local_path fs).map List.length).getD 0,
                         downloaded_at := some (a.downloaded_at.getD env.now),
                         error := none }
              { st2 with pdf_cache := cacheUpdate pid upd st2.pdf_cache }
            else st2
        ⟨.ok { session_id := sid, paper_id := pid, pdf_url := pdfUrl,
               local_path := local_path, status := .READY, existed := true,
               size_bytes := none, sha256 := none }, st3, fs, []⟩
      else
        let lock_path := local_path ++ ".lock".toList
        match acquire_lock fs lock_path with
        | .error e => ⟨.error e, st2, fs, []⟩
        | .ok fsL =>
          let st3 :=
            match asset0 with
            | none =>
              let a : PdfAsset :=
                { paper_id := pid, pdf_url := pdfUrl, local_path := local_path,
                  status := .DOWNLOADING, size_bytes := 0, sha256 := none,
                  downloaded_at := none, error := none }
              { st2 with pdf_cache := cacheUpsert a st2.pdf_cache }
            | some _ =>
              let upd := fun (b : PdfAsset) =>
                { b with status := AssetStatus.DOWNLOADING, pdf_url := pdfUrl,
                         local_path := local_path, error := none }
              { st2 with pdf_cache := cacheUpdate pid upd st2.pdf_cache }
          let dr := download_pdf env pdfUrl local_path fsL
          match dr.1 with
          | .ok sz =>
            let upd := fun (b : PdfAsset) =>
              { b with status := AssetStatus.READY, size_bytes := sz.1,
                       sha256 := some sz.2, downloaded_at := some env.now,
                       error := none }
            let st4 := { st3 with pdf_cache := cacheUpdate pid upd st3.pdf_cache }
            ⟨.ok { session_id := sid, paper_id := pid, pdf_url := pdfUrl,
                   local_path := local_path, status := .READY, existed := false,
                   size_bytes := some sz.1, sha256 := some sz.2 },
             st4, release_lock dr.2 lock_path, [pdfUrl]⟩
          | .error e =>
            let upd := fun (b : PdfAsset) =>
              { b with status := AssetStatus.FAILED, error := some (errMsg e) }
            let st4 := { st3 with pdf_cache := cacheUpdate pid upd st3.pdf_cache }
            ⟨.error e, st4, release_lock dr.2 lock_path, [pdfUrl]⟩

/-- The session-length invariant of spec §3:
`|last_papers| ≤ max_papers` for every stored session. -/
def StoreInv (st : Store) : Prop :=
  ∀ e ∈ st.sessions, e.2.last_papers.length ≤ st.max_papers

instance (st : Store) : Decidable (StoreInv st) :=
  inferInstanceAs (Decidable (∀ e ∈ st.sessions, e.2.last_papers.length ≤ st.max_papers))

deriving instance DecidableEq for Except

/-! ## Concrete fixtures (used to instantiate theorems with hypotheses) -/

def wP1 : Paper :=
  ⟨"p1".toList, some "Alpha Beta".toList, some "https://arxiv.org/pdf/p1".toList⟩

def wP2 : Paper := ⟨"p2".toList, some "Gamma".toList, none⟩

def wP3 : Paper := ⟨"p3".toList, some "Delta".toList, some "https://arxiv.org/pdf/p3".toList⟩

def wSession : SessionState := ⟨"s".toList, [wP1, wP2, wP3], some "p2".toList, 0, some 0⟩

def wStore : Store := ⟨[("s".toList, wSession)], 60, 50, []⟩

def wSessionOne : SessionState := ⟨"s".toList, [wP1], some "p1".toList, 0, some 0⟩

def wStoreSmall : Store := ⟨[("s".toList, wSessionOne)], 60, 2, []⟩

def wEnvNoNet : DlEnv := ⟨fun _ => none, fun _ => "h0".toList, 0, "raw".toList⟩

def wEnvBadBody : DlEnv :=
  ⟨fun u => if u = "https://arxiv.org/pdf/p1.pdf".toList then some [1, 2, 3] else none,
   fun _ => "h0".toList, 0, "raw".toList⟩

def wFs : FS := [("raw/p1.pdf".toList, [9, 9, 9])]

/-! ## Lemmas: association lists -/

theorem alookup_cons {α β : Type} [DecidableEq α] (k k' : α) (v : β)
    (l : List (α × β)) :
    alookup k' ((k, v) :: l) = if k = k' then some v else alookup k' l := rfl

theorem ainsert_cons {α β : Type} [DecidableEq α] (k k2 : α) (v v2 : β)
    (l : List (α × β)) :
    ainsert k v ((k2, v2) :: l) =
      if k2 = k then (k, v) :: l else (k2, v2) :: ainsert k v l := rfl

theorem aremove_cons {α β : Type} [DecidableEq α] (k k2 : α) (v2 : β)
    (l : List (α × β)) :
    aremove k ((k2, v2) :: l) =
      if k2 = k then aremove k l else (k2, v2) :: aremove k l := rfl

theorem alookup_ainsert {α β : Type} [DecidableEq α] (k k' : α) (v : β)
    (l : List (α × β)) :
    alookup k' (ainsert k v l) = if k = k' then some v else alookup k' l := by
  induction l with
  | nil => by_cases h : k = k' <;> simp [ainsert, alookup, h]
  | cons hd tl ih =>
    obtain ⟨k2, v2⟩ := hd
    by_cases h2 : k2 = k <;> by_cases h3 : k2 = k' <;> by_cases h4 : k = k' <;>
      simp_all [ainsert_cons, alookup_cons]

theorem alookup_ainsert_self {α β : Type} [DecidableEq α] (k : α) (v : β)
    (l : List (α × β)) : alookup k (ainsert k v l) = some v := by
  simp [alookup_ainsert]

theorem alookup_ainsert_ne {α β : Type} [DecidableEq α] (k k' : α) (v : β)
    (l : List (α × β)) (h : k ≠ k') :
    alookup k' (ainsert k v l) = alookup k' l := by
  simp [alookup_ainsert, h]

theorem alookup_aremove {α β : Type} [DecidableEq α] (k k' : α) (l : List (α × β)) :
    alookup k' (aremove k l) = if k = k' then none else alookup k' l := by
  induction l with
  | nil => by_cases h : k = k' <;> simp [aremove, alookup, h]
  | cons hd tl ih =>
    obtain ⟨k2, v2⟩ := hd
    by_cases h2 : k2 = k <;> by_cases h3 : k2 = k' <;> by_cases h4 : k = k' <;>
      simp_all [aremove_cons, alookup_cons]

/-! ## Lemmas: the session store -/

theorem alookup_mem {α β : Type} [DecidableEq α] (k : α) (v : β) (l : List (α × β))
    (h : alookup k l = some v) : (k, v) ∈ l := by
  induction l with
  | nil => simp [alookup] at h
  | cons hd tl ih =>
    obtain ⟨k2, v2⟩ := hd
    rw [alookup_cons] at h
    split_ifs at h with h2
    · injection h with h3
      subst h2; subst h3
      exact List.mem_cons_self _ _
    · exact List.mem_cons_of_mem _ (ih h)

theorem mem_ainsert {α β : Type} [DecidableEq α] (e : α × β) (k : α) (v : β)
    (l : List (α × β)) (h : e ∈ ainsert k v l) : e = (k, v) ∨ e ∈ l := by
  induction l with
  | nil => simpa [ainsert] using h
  | cons hd tl ih =>
    obtain ⟨k2, v2⟩ := hd
    rw [ainsert_cons] at h
    split_ifs at h with h2
    · rcases List.mem_cons.mp h with h3 | h3
      · exact Or.inl h3
      · exact Or.inr (List.mem_cons_of_mem _ h3)
    · rcases List.mem_cons.mp h with h3 | h3
      · exact Or.inr (by rw [h3]; exact List.mem_cons_self _ _)
      · rcases ih h3 with h4 | h4
        · exact Or.inl h4
        · exact Or.inr (List.mem_cons_of_mem _ h4)

theorem storeInv_ainsert (st : Store) (sid : List Char) (ss : SessionState)
    (hinv : StoreInv st) (h : ss.last_papers.length ≤ st.max_papers) :
    StoreInv { st with sessions := ainsert sid ss st.sessions } := by
  intro e he
  rcases mem_ainsert e sid ss st.sessions he with h2 | h2
  · rw [h2]; exact h
  · exact hinv e h2

theorem storeInv_set_last_papers (st : Store) (sid : List Char) (papers : List Paper)
    (now : Nat) (hinv : StoreInv st) : StoreInv (set_last_papers st sid papers now) := by
  unfold set_last_papers
  refine storeInv_ainsert st sid _ hinv ?_
  rw [show ({ (alookup sid st.sessions).getD (newSession sid now) with
        last_papers := papers.take st.max_papers, updated_at := now }
        : SessionState).last_papers = papers.take st.max_papers from rfl]
  rw [List.length_take]
  exact min_le_left _ _

theorem storeInv_get_last_papers (st : Store) (sid : List Char) (now : Nat)
    (hinv : StoreInv st) : StoreInv (get_last_papers st sid now).2 := by
  unfold get_last_papers
  cases h : alookup sid st.sessions with
  | none => exact hinv
  | some ss =>
    dsimp only
    split_ifs with he
    · exact storeInv_ainsert st sid _ hinv (by simp)
    · exact hinv

theorem storeInv_set_last_active (st : Store) (sid pid : List Char) (now : Nat)
    (hinv : StoreInv st) : StoreInv (set_last_active_paper_id st sid pid now) := by
  unfold set_last_active_paper_id
  split_ifs with he
  · exact hinv
  · cases h : alookup sid st.sessions with
    | none =>
      refine storeInv_ainsert st sid _ hinv ?_
      simp [newSession]
    | some ss =>
      refine storeInv_ainsert st sid _ hinv ?_
      simpa using hinv (sid, ss) (alookup_mem sid ss st.sessions h)

theorem storeInv_get_last_active (st : Store) (sid : List Char) (now : Nat)
    (hinv : StoreInv st) : StoreInv (get_last_active_paper_id st sid now).2 := by
  unfold get_last_active_paper_id
  cases h : alookup sid st.sessions with
  | none => exact hinv
  | some ss =>
    dsimp only
    cases ss.last_active_at with
    | none => exact hinv
    | some t =>
      dsimp only
      split_ifs with he
      · exact storeInv_ainsert st sid _ hinv
          (hinv (sid, ss) (alookup_mem sid ss st.sessions h))
      · exact hinv

/-- The store returned by `resolve_paper` is the one produced by its internal
`get_last_papers` call, possibly further threaded through
`get_last_active_paper_id`. -/
theorem resolve_paper_snd (st : Store) (sid : List Char) (ref : Ref) (now : Nat) :
    (resolve_paper st sid ref now).2 = (get_last_papers st sid now).2 ∨
    (resolve_paper st sid ref now).2 =
      (get_last_active_paper_id (get_last_papers st sid now).2 sid now).2 := by
  unfold resolve_paper
  cases ref with
  | null =>
    dsimp only
    split_ifs with hpe
    · left; rfl
    · cases har : (get_last_active_paper_id (get_last_papers st sid now).2 sid now).1 with
      | none => right; rfl
      | some lid =>
        dsimp only
        split_ifs with hle
        · right; rfl
        · right; rfl
  | int n =>
    dsimp only
    left
    split_ifs <;> rfl
  | str s =>
    dsimp only
    split_ifs with hpe
    · left; rfl
    · cases hrm : refFullmatch (pyStrip s) with
      | some d => left; rfl
      | none =>
        dsimp only
        cases hf : (get_last_papers st sid now).1.find? (fun q => q.id == pyStrip s) with
        | some q => left; rfl
        | none => left; rfl

theorem storeInv_resolve_paper (st : Store) (sid : List Char) (ref : Ref) (now : Nat)
    (hinv : StoreInv st) : StoreInv (resolve_paper st sid ref now).2 := by
  rcases resolve_paper_snd st sid ref now with h | h <;> rw [h]
  · exact storeInv_get_last_papers st sid now hinv
  · exact storeInv_get_last_active _ sid now (storeInv_get_last_papers st sid now hinv)

/-- The session list mutation done by `get_last_papers` (expiry clearing)
does not change what `get_last_active_paper_id` returns at the same tick. -/
theorem gla_fst_glp (st : Store) (sid : List Char) (now : Nat) :
    (get_last_active_paper_id (get_last_papers st sid now).2 sid now).1 =
      (get_last_active_paper_id st sid now).1 := by
  unfold get_last_papers
  cases h : alookup sid st.sessions with
  | none => rfl
  | some ss =>
    dsimp only
    split_ifs with he
    · unfold get_last_active_paper_id
      dsimp only
      rw [alookup_ainsert_self, h]
      dsimp only
      cases ss.last_active_at with
      | none => rfl
      | some t =>
        dsimp only
        split_ifs <;> rfl
    · rfl

/-! ## Claim C5 -/

/-- C5: for every session and paper list `P` with `|P| > max_papers`, after
`set_last_papers sid P` a non-expired `get_last_papers sid` returns exactly
the first `max_papers` elements of `P` in order; and the invariant
`|last_papers| ≤ max_papers` is preserved by every store operation. -/
theorem c5_truncation_and_invariant
    (st : Store) (sid sid2 : List Char) (P Q : List Paper) (pid : List Char)
    (ref : Ref) (now now2 : Nat)
    (_hlen : st.max_papers < P.length)
    (hfresh : now2 - now ≤ st.ttl)
    (hinv : StoreInv st) :
    (get_last_papers (set_last_papers st sid P now) sid now2).1 = P.take st.max_papers ∧
    StoreInv (set_last_papers st sid2 Q now) ∧
    StoreInv (get_last_papers st sid2 now).2 ∧
    StoreInv (set_last_active_paper_id st sid2 pid now) ∧
    StoreInv (get_last_active_paper_id st sid2 now).2 ∧
    StoreInv (resolve_paper st sid2 ref now).2 := by
  refine ⟨?_, storeInv_set_last_papers st sid2 Q now hinv,
    storeInv_get_last_papers st sid2 now hinv,
    storeInv_set_last_active st sid2 pid now hinv,
    storeInv_get_last_active st sid2 now hinv,
    storeInv_resolve_paper st sid2 ref now hinv⟩
  unfold set_last_papers get_last_papers
  dsimp only
  rw [alookup_ainsert_self]
  dsimp only
  rw [if_neg (by omega)]

/-- Witness for C5 at a concrete store (`max_papers = 2`, three papers
supplied, read back 50 ticks later with `ttl = 60`). -/
theorem c5_witness :
    wStoreSmall.max_papers < [wP1, wP2, wP3].length ∧
    50 - 0 ≤ wStoreSmall.ttl ∧
    StoreInv wStoreSmall ∧
    ((get_last_papers (set_last_papers wStoreSmall "s".toList [wP1, wP2, wP3] 0)
        "s".toList 50).1 = [wP1, wP2, wP3].take wStoreSmall.max_papers ∧
      StoreInv (set_last_papers wStoreSmall "s".toList [wP2] 0) ∧
      StoreInv (get_last_papers wStoreSmall "s".toList 0).2 ∧
      StoreInv (set_last_active_paper_id wStoreSmall "s".toList "p9".toList 0) ∧
      StoreInv (get_last_active_paper_id wStoreSmall "s".toList 0).2 ∧
      StoreInv (resolve_paper wStoreSmall "s".toList (.int 1) 0).2) :=
  ⟨by decide, by decide, by decide,
    c5_truncation_and_invariant wStoreSmall "s".toList "s".toList [wP1, wP2, wP3] [wP2]
      "p9".toList (.int 1) 0 50 (by decide) (by decide) (by decide)⟩

/-! ## Claim C6 -/

/-- C6: `resolve_paper sid null` returns `some p` exactly when the session's
(non-expired) last-active id equals `p.id` and `p` is the first paper with
that id in the current non-expired `last_papers`; in every other case it
returns `none` (the function is total, so it never raises). The hypothesis
excludes a last-active id equal to the empty string, which
`set_last_active_paper_id` can never store. -/
theorem c6_resolve_null_iff (st : Store) (sid : List Char) (now : Nat) (p : Paper)
    (hid : (get_last_active_paper_id st sid now).1 ≠ some []) :
    (resolve_paper st sid .null now).1 = some p ↔
      ((get_last_active_paper_id st sid now).1 = some p.id ∧
       (get_last_papers st sid now).1.find? (fun q => q.id == p.id) = some p) := by
  rw [← gla_fst_glp st sid now] at hid ⊢
  unfold resolve_paper
  dsimp only
  by_cases hpe : (get_last_papers st sid now).1.isEmpty
  · rw [if_pos hpe]
    have hnil : (get_last_papers st sid now).1 = [] := List.isEmpty_iff.mp hpe
    simp [hnil]
  · rw [if_neg hpe]
    cases har : (get_last_active_paper_id (get_last_papers st sid now).2 sid now).1 with
    | none => simp
    | some lid =>
      have hlid : ¬ lid.isEmpty = true := by
        intro hl
        exact hid (by rw [har, List.isEmpty_iff.mp hl])
      dsimp only
      rw [if_neg hlid]
      dsimp only
      constructor
      · intro h
        have hpid : p.id = lid := by simpa using List.find?_some h
        refine ⟨by rw [hpid], ?_⟩
        simp only [hpid]
        exact h
      · rintro ⟨h1, h2⟩
        injection h1 with h1'
        simp only [← h1'] at h2
        exact h2

/-- Witness for C6 at a concrete session whose last-active id `p2` is
present among three cached papers. -/
theorem c6_witness :
    (get_last_active_paper_id wStore "s".toList 0).1 ≠ some [] ∧
    ((resolve_paper wStore "s".toList .null 0).1 = some wP2 ↔
      ((get_last_active_paper_id wStore "s".toList 0).1 = some wP2.id ∧
       (get_last_papers wStore "s".toList 0).1.find? (fun q => q.id == wP2.id)
         = some wP2)) :=
  ⟨by decide, c6_resolve_null_iff wStore "s".toList 0 wP2 (by decide)⟩

/-! ## Claim C7 -/

/-- C7: a string fully matching `_REF_RE` with digit value `n` resolves
exactly like the integer reference `n`: the `n`-th paper (1-based) when in
bounds, `none` when out of bounds; id and title matching are never reached
for such strings. -/
theorem c7_numeric_string_resolves_as_index
    (st : Store) (sid : List Char) (now : Nat) (s : List Char) (n : Nat)
    (h : refFullmatch (pyStrip s) = some n) :
    (resolve_paper st sid (.str s) now).1 = (resolve_paper st sid (.int (n : Int)) now).1 ∧
    (1 ≤ n →
      (resolve_paper st sid (.str s) now).1 = ((get_last_papers st sid now).1)[n - 1]?) ∧
    (n = 0 → (resolve_paper st sid (.str s) now).1 = none) := by
  unfold resolve_paper
  dsimp only
  by_cases hpe : (get_last_papers st sid now).1.isEmpty
  · have hnil : (get_last_papers st sid now).1 = [] := List.isEmpty_iff.mp hpe
    simp [hpe, hnil]
  · simp only [if_neg hpe, h]
    refine ⟨?_, ?_, ?_⟩
    · trivial
    · intro h1
      rw [if_pos (by omega : (0 : Int) ≤ (n : Int) - 1)]
      congr 1
      omega
    · intro h0
      subst h0
      rw [if_neg (by omega : ¬ (0 : Int) ≤ ((0 : Nat) : Int) - 1)]

/-- Witness for C7: `resolve_paper(sid, "第3篇")` equals
`resolve_paper(sid, 3)` on a session with three cached papers. -/
theorem c7_witness :
    refFullmatch (pyStrip "第3篇".toList) = some 3 ∧
    (resolve_paper wStore "s".toList (.str "第3篇".toList) 0).1 =
      (resolve_paper wStore "s".toList (.int 3) 0).1 :=
  ⟨by decide,
    (c7_numeric_string_resolves_as_index wStore "s".toList 0 "第3篇".toList 3 (by decide)).1⟩

/-! ## Lemmas: progress extraction -/

theorem pctCandidate_range (o : Option Nat) (p : ℚ) (h : pctCandidate o = some p) :
    0 ≤ p ∧ p ≤ 1 := by
  rcases o with _ | v
  · exact Option.noConfusion h
  · have hr : pctCandidate (some v) =
        if v ≤ 100 then some ((v : ℚ) / 100) else none := rfl
    rw [hr] at h
    split_ifs at h with hv
    · injection h with h'
      subst h'
      constructor
      · positivity
      · rw [div_le_one (by norm_num)]
        exact_mod_cast hv

theorem fracCandidate_range (o : Option (Nat × Nat)) (p : ℚ)
    (h : fracCandidate o = some p) : 0 ≤ p ∧ p ≤ 1 := by
  rcases o with _ | ⟨i, n⟩
  · exact Option.noConfusion h
  · have hr : fracCandidate (some (i, n)) =
        if 0 < n then some (max 0 (min 1 ((i : ℚ) / (n : ℚ)))) else none := rfl
    rw [hr] at h
    split_ifs at h with hn
    · injection h with h'
      subst h'
      exact ⟨le_max_left 0 _, max_le (by norm_num) (min_le_left 1 _)⟩

/-- The sequential early-return structure of `_extract_progress` agrees with
the spec's four-recognizer priority chain. -/
theorem extract_eq_specChain (s : List Char) :
    _extract_progress s = extractSpecChain s := by
  by_cases hse : s.isEmpty
  · have hnil : s = [] := List.isEmpty_iff.mp hse
    subst hnil
    rfl
  · unfold _extract_progress extractSpecChain
    rw [if_neg hse]
    cases h1 : tqdmSearch s <;> cases h2 : plainSearch s <;>
      cases h3 : pageSearch s <;> cases h4 : fractionSearch s <;>
      simp only [pctCandidate, fracCandidate, Option.bind, Option.orElse] <;>
      split_ifs <;> simp_all

/-- Every value `_extract_progress` produces lies in `[0, 1]`. -/
theorem extract_range (s : List Char) (p : ℚ) (h : _extract_progress s = some p) :
    0 ≤ p ∧ p ≤ 1 := by
  rw [extract_eq_specChain] at h
  unfold extractSpecChain at h
  cases hc1 : pctCandidate (tqdmSearch s) with
  | some x =>
    rw [hc1] at h
    injection h with h'
    subst h'
    exact pctCandidate_range _ _ hc1
  | none =>
    rw [hc1] at h
    rw [show (Option.orElse none fun _ =>
        (pctCandidate (plainSearch s)).orElse fun _ =>
          (fracCandidate (pageSearch s)).orElse fun _ =>
            fracCandidate (fractionSearch s)) =
        ((pctCandidate (plainSearch s)).orElse fun _ =>
          (fracCandidate (pageSearch s)).orElse fun _ =>
            fracCandidate (fractionSearch s)) from rfl] at h
    cases hc2 : pctCandidate (plainSearch s) with
    | some x =>
      rw [hc2] at h
      injection h with h'
      subst h'
      exact pctCandidate_range _ _ hc2
    | none =>
      rw [hc2] at h
      rw [show (Option.orElse none fun _ =>
          (fracCandidate (pageSearch s)).orElse fun _ =>
            fracCandidate (fractionSearch s)) =
          ((fracCandidate (pageSearch s)).orElse fun _ =>
            fracCandidate (fractionSearch s)) from rfl] at h
      cases hc3 : fracCandidate (pageSearch s) with
      | some x =>
        rw [hc3] at h
        injection h with h'
        subst h'
        exact fracCandidate_range _ _ hc3
      | none =>
        rw [hc3] at h
        rw [show (Option.orElse none fun _ =>
            fracCandidate (fractionSearch s)) =
            fracCandidate (fractionSearch s) from rfl] at h
        exact fracCandidate_range _ _ h

/-! ## Lemmas: the `on_text` monotone filter -/

theorem on_text_none (lastP : Option ℚ) (t : List Char)
    (h : _extract_progress t = none) : on_text_progress lastP t = (lastP, []) := by
  unfold on_text_progress
  rw [h]

theorem on_text_some_first (t : List Char) (p : ℚ)
    (h : _extract_progress t = some p) : on_text_progress none t = (some p, [p]) := by
  unfold on_text_progress
  rw [h]

theorem on_text_some_lt (t : List Char) (p q : ℚ)
    (h : _extract_progress t = some p) (hq : q < p) :
    on_text_progress (some q) t = (some p, [p]) := by
  unfold on_text_progress
  rw [h]
  exact if_pos hq

theorem on_text_some_ge (t : List Char) (p q : ℚ)
    (h : _extract_progress t = some p) (hq : ¬ q < p) :
    on_text_progress (some q) t = (some q, []) := by
  unfold on_text_progress
  rw [h]
  exact if_neg hq

theorem processLines_cons (lastP : Option ℚ) (t : List Char) (ts : List (List Char)) :
    processLines lastP (t :: ts) =
      (on_text_progress lastP t).2 ++ processLines (on_text_progress lastP t).1 ts := rfl

/-- Every emission after state `some q` is strictly above `q`. -/
theorem processLines_gt (ls : List (List Char)) (q : ℚ) :
    ∀ x ∈ processLines (some q) ls, q < x := by
  induction ls generalizing q with
  | nil => intro x hx; simp [processLines] at hx
  | cons t ts ih =>
    intro x hx
    rw [processLines_cons] at hx
    cases he : _extract_progress t with
    | none =>
      rw [on_text_none _ _ he] at hx
      exact ih q x (by simpa using hx)
    | some p =>
      by_cases hq : q < p
      · rw [on_text_some_lt t p q he hq] at hx
        rcases List.mem_cons.mp (by simpa using hx) with h | h
        · rw [h]; exact hq
        · exact lt_trans hq (ih p x h)
      · rw [on_text_some_ge t p q he hq] at hx
        exact ih q x (by simpa using hx)

/-- Every value `processLines` emits is an `_extract_progress` value of one
of the chunks, hence lies in `[0, 1]`. -/
theorem processLines_range (ls : List (List Char)) (lastP : Option ℚ) :
    ∀ x ∈ processLines lastP ls, 0 ≤ x ∧ x ≤ 1 := by
  induction ls generalizing lastP with
  | nil => intro x hx; simp [processLines] at hx
  | cons t ts ih =>
    intro x hx
    rw [processLines_cons] at hx
    cases he : _extract_progress t with
    | none =>
      rw [on_text_none _ _ he] at hx
      exact ih lastP x (by simpa using hx)
    | some p =>
      cases lastP with
      | none =>
        rw [on_text_some_first t p he] at hx
        rcases List.mem_cons.mp (by simpa using hx) with h | h
        · rw [h]; exact extract_range t p he
        · exact ih (some p) x h
      | some q =>
        by_cases hq : q < p
        · rw [on_text_some_lt t p q he hq] at hx
          rcases List.mem_cons.mp (by simpa using hx) with h | h
          · rw [h]; exact extract_range t p he
          · exact ih (some p) x h
        · rw [on_text_some_ge t p q he hq] at hx
          exact ih (some q) x (by simpa using hx)

/-- The emitted progress sequence is strictly increasing. -/
theorem processLines_chain (ls : List (List Char)) (lastP : Option ℚ) :
    List.Chain' (· < ·) (processLines lastP ls) := by
  induction ls generalizing lastP with
  | nil => simp [processLines]
  | cons t ts ih =>
    rw [processLines_cons]
    cases he : _extract_progress t with
    | none =>
      rw [on_text_none _ _ he]
      simpa using ih lastP
    | some p =>
      cases lastP with
      | none =>
        rw [on_text_some_first t p he]
        refine (List.chain'_cons'.mpr ⟨?_, ih (some p)⟩)
        intro y hy
        exact processLines_gt ts p y (List.mem_of_mem_head? hy)
      | some q =>
        by_cases hq : q < p
        · rw [on_text_some_lt t p q he hq]
          refine (List.chain'_cons'.mpr ⟨?_, ih (some p)⟩)
          intro y hy
          exact processLines_gt ts p y (List.mem_of_mem_head? hy)
        · rw [on_text_some_ge t p q he hq]
          simpa using ih (some q)

/-! ## Claim C4 -/

/-- C4: only strictly increasing extracted progress values trigger the
callback (the emitted sequence is strictly increasing for every chunk
stream), and the stream `"10%", "5%", "50%", "100%"` triggers exactly
`0.10, 0.50, 1.00` — the regressive `5%` is suppressed. -/
theorem c4_strictly_increasing_emissions :
    (∀ ls : List (List Char), List.Chain' (· < ·) (processLines none ls)) ∧
    processLines none ["10%".toList, "5%".toList, "50%".toList, "100%".toList] =
      [(0.10 : ℚ), 0.50, 1.00] := by
  constructor
  · intro ls
    exact processLines_chain ls none
  · have he1 : _extract_progress "10%".toList = some ((10 : ℚ) / 100) := by
      have h0 : ("10%".toList).isEmpty = false := by decide
      have h1 : tqdmSearch "10%".toList = none := by decide
      have h2 : plainSearch "10%".toList = some 10 := by decide
      simp only [_extract_progress, h0, h1, h2, Bool.false_eq_true, if_false]
      norm_num
    have he2 : _extract_progress "5%".toList = some ((5 : ℚ) / 100) := by
      have h0 : ("5%".toList).isEmpty = false := by decide
      have h1 : tqdmSearch "5%".toList = none := by decide
      have h2 : plainSearch "5%".toList = some 5 := by decide
      simp only [_extract_progress, h0, h1, h2, Bool.false_eq_true, if_false]
      norm_num
    have he3 : _extract_progress "50%".toList = some ((50 : ℚ) / 100) := by
      have h0 : ("50%".toList).isEmpty = false := by decide
      have h1 : tqdmSearch "50%".toList = none := by decide
      have h2 : plainSearch "50%".toList = some 50 := by decide
      simp only [_extract_progress, h0, h1, h2, Bool.false_eq_true, if_false]
      norm_num
    have he4 : _extract_progress "100%".toList = some ((100 : ℚ) / 100) := by
      have h0 : ("100%".toList).isEmpty = false := by decide
      have h1 : tqdmSearch "100%".toList = none := by decide
      have h2 : plainSearch "100%".toList = some 100 := by decide
      simp only [_extract_progress, h0, h1, h2, Bool.false_eq_true, if_false]
      norm_num
    rw [processLines_cons, on_text_some_first _ _ he1]
    dsimp only
    rw [processLines_cons, on_text_some_ge _ _ _ he2 (by norm_num)]
    dsimp only
    rw [processLines_cons, on_text_some_lt _ _ _ he3 (by norm_num)]
    dsimp only
    rw [processLines_cons, on_text_some_lt _ _ _ he4 (by norm_num)]
    dsimp only [processLines]
    norm_num

/-! ## Claim C8 -/

/-- C8: `_extract_progress` tries exactly the four recognizers in priority
order — it equals the spec's priority chain of guarded recognizers — every
produced value lies in `[0, 1]`, and when no recognizer (with its guard)
produces a value, no progress value is produced. -/
theorem c8_four_recognizers_priority (s : List Char) :
    _extract_progress s = extractSpecChain s ∧
    (∀ p, _extract_progress s = some p → 0 ≤ p ∧ p ≤ 1) ∧
    (pctCandidate (tqdmSearch s) = none → pctCandidate (plainSearch s) = none →
      fracCandidate (pageSearch s) = none → fracCandidate (fractionSearch s) = none →
      _extract_progress s = none) := by
  refine ⟨extract_eq_specChain s, fun p h => extract_range s p h, ?_⟩
  intro h1 h2 h3 h4
  rw [extract_eq_specChain]
  unfold extractSpecChain
  simp only [h1, h2, h3, h4]
  rfl

/-- Witness for C8 on text where no recognizer applies. -/
theorem c8_witness :
    pctCandidate (tqdmSearch "xyz".toList) = none ∧
    pctCandidate (plainSearch "xyz".toList) = none ∧
    fracCandidate (pageSearch "xyz".toList) = none ∧
    fracCandidate (fractionSearch "xyz".toList) = none ∧
    _extract_progress "xyz".toList = none :=
  ⟨by decide, by decide, by decide, by decide,
    (c8_four_recognizers_priority "xyz".toList).2.2 (by decide) (by decide)
      (by decide) (by decide)⟩

/-! ## Claim C10 -/

/-- C10: every value `run_pdf2zh_translate` passes to the progress callback
lies in `[0, 1]`, the first emission is `0.0`, and on success the final
emission is `1.0` — for every subprocess output whatsoever. -/
theorem c10_trace_bounds (chunks : List (List Char)) (success : Bool) :
    (∀ v ∈ run_pdf2zh_progress_trace chunks success, 0 ≤ v ∧ v ≤ 1) ∧
    (run_pdf2zh_progress_trace chunks success).head? = some 0 ∧
    (success = true →
      (run_pdf2zh_progress_trace chunks success).getLast? = some 1) := by
  unfold run_pdf2zh_progress_trace
  refine ⟨?_, rfl, ?_⟩
  · intro v hv
    rcases List.mem_cons.mp hv with h | h
    · rw [h]; norm_num
    · rcases List.mem_append.mp h with h2 | h2
      · exact processLines_range chunks none v h2
      · cases success with
        | true =>
          have h3 : v = 1 := by simpa using h2
          rw [h3]; norm_num
        | false => simp at h2
  · intro hs
    subst hs
    rw [show ((0 : ℚ) :: (processLines none chunks ++
          if (true : Bool) = true then [(1 : ℚ)] else [])) =
        ((0 : ℚ) :: processLines none chunks) ++ [(1 : ℚ)] from by simp]
    exact List.getLast?_concat _

/-- Witness for C10 at a concrete chunk stream and a successful run. -/
theorem c10_witness :
    (true : Bool) = true ∧
    ((∀ v ∈ run_pdf2zh_progress_trace ["10%".toList] true, 0 ≤ v ∧ v ≤ 1) ∧
     (run_pdf2zh_progress_trace ["10%".toList] true).head? = some 0 ∧
     ((true : Bool) = true →
       (run_pdf2zh_progress_trace ["10%".toList] true).getLast? = some 1)) :=
  ⟨rfl, c10_trace_bounds ["10%".toList] true⟩

/-! ## Lemmas: filesystem paths -/

theorem append_suffix_ne (p a b : List Char) (h : a ≠ b) : p ++ a ≠ p ++ b := by
  intro hc
  exact h (List.append_cancel_left hc)

theorem ne_append_of_ne_nil (p a : List Char) (ha : a ≠ []) : p ≠ p ++ a := by
  intro h
  have h2 := congrArg List.length h
  rw [List.length_append] at h2
  have : a.length = 0 := by omega
  exact ha (List.length_eq_zero.mp this)

/-! ## Claim C3 -/

/-- C3: with `force = false` and an existing non-empty destination file, a
resolvable download request performs no network I/O, returns READY with
`existed = true`, and leaves the cache record for the paper in status READY
(creating or repairing it as needed). -/
theorem c3_fast_path (env : DlEnv) (st : Store) (fs : FS) (sid : List Char) (ref : Ref)
    (pid pu : List Char) (st1 : Store) (nurl : List Char) (content : List Nat)
    (h1 : dlResolve st sid ref env.now = .ok (pid, pu, st1))
    (h2 : normalize_arxiv_pdf_url pu = .ok nurl)
    (h3 : fsRead (localPathOf env pid) fs = some content)
    (h4 : content ≠ []) :
    (∃ r : DlOk, (download_arxiv_pdf env st fs sid ref false).result = .ok r ∧
      r.status = .READY ∧ r.existed = true) ∧
    (download_arxiv_pdf env st fs sid ref false).fetched = [] ∧
    (∃ a : PdfAsset,
      cacheGet pid (download_arxiv_pdf env st fs sid ref false).store.pdf_cache = some a ∧
      a.status = .READY) := by
  have hex : (fsRead (localPathOf env pid) fs).any (fun b => !b.isEmpty) = true := by
    rw [h3]
    simpa using h4
  unfold download_arxiv_pdf
  rw [h1]
  dsimp only
  rw [h2]
  dsimp only
  rw [Bool.not_false, Bool.and_true, if_pos hex]
  refine ⟨⟨_, rfl, rfl, rfl⟩, rfl, ?_⟩
  cases ha : cacheGet pid (set_last_active_paper_id st1 sid pid env.now).pdf_cache with
  | none =>
    dsimp only
    refine ⟨{ paper_id := pid, pdf_url := nurl, local_path := localPathOf env pid,
              status := AssetStatus.READY,
              size_bytes := ((fsRead (localPathOf env pid) fs).map List.length).getD 0,
              sha256 := none, downloaded_at := some env.now, error := none }, ?_, rfl⟩
    unfold cacheGet cacheUpsert
    dsimp only
    exact alookup_ainsert_self _ _ _
  | some a =>
    dsimp only
    by_cases hst : a.status ≠ AssetStatus.READY
    · rw [if_pos hst]
      dsimp only
      refine ⟨{ paper_id := a.paper_id, pdf_url := nurl,
                local_path := localPathOf env pid, status := AssetStatus.READY,
                size_bytes := ((fsRead (localPathOf env pid) fs).map List.length).getD 0,
                sha256 := a.sha256,
                downloaded_at := some (a.downloaded_at.getD env.now),
                error := none }, ?_, rfl⟩
      unfold cacheGet cacheUpdate
      unfold cacheGet at ha
      rw [ha]
      dsimp only
      exact alookup_ainsert_self _ _ _
    · rw [if_neg hst]
      exact ⟨a, ha, not_not.mp hst⟩

/-- Witness for C3: concrete store with paper `p1`, destination file
`raw/p1.pdf` present and non-empty. -/
theorem c3_witness :
    dlResolve wStore "s".toList (.int 1) wEnvNoNet.now =
      .ok ("p1".toList, "https://arxiv.org/pdf/p1".toList, wStore) ∧
    normalize_arxiv_pdf_url "https://arxiv.org/pdf/p1".toList =
      .ok "https://arxiv.org/pdf/p1.pdf".toList ∧
    fsRead (localPathOf wEnvNoNet "p1".toList) wFs = some [9, 9, 9] ∧
    ([9, 9, 9] : List Nat) ≠ [] ∧
    ((∃ r : DlOk,
        (download_arxiv_pdf wEnvNoNet wStore wFs "s".toList (.int 1) false).result =
          .ok r ∧ r.status = .READY ∧ r.existed = true) ∧
      (download_arxiv_pdf wEnvNoNet wStore wFs "s".toList (.int 1) false).fetched = [] ∧
      (∃ a : PdfAsset,
        cacheGet "p1".toList
          (download_arxiv_pdf wEnvNoNet wStore wFs "s".toList (.int 1) false).store.pdf_cache
            = some a ∧ a.status = .READY)) :=
  ⟨by decide, by decide, by decide, by decide,
    c3_fast_path wEnvNoNet wStore wFs "s".toList (.int 1) "p1".toList
      "https://arxiv.org/pdf/p1".toList wStore "https://arxiv.org/pdf/p1.pdf".toList
      [9, 9, 9] (by decide) (by decide) (by decide) (by decide)⟩

/-! ## Claim C9 -/

/-- C9: a slow-path download that can acquire the lock removes the lock file
on every exit path — whatever the network returns and whether validation
succeeds or fails, no lock file remains after the call. -/
theorem c9_lock_always_released (env : DlEnv) (st : Store) (fs : FS) (sid : List Char)
    (ref : Ref) (force : Bool) (pid pu : List Char) (st1 : Store) (nurl : List Char)
    (h1 : dlResolve st sid ref env.now = .ok (pid, pu, st1))
    (h2 : normalize_arxiv_pdf_url pu = .ok nurl)
    (h3 : ((fsRead (localPathOf env pid) fs).any (fun b => !b.isEmpty) && !force) = false)
    (h4 : fsRead (localPathOf env pid ++ ".lock".toList) fs = none) :
    fsRead (localPathOf env pid ++ ".lock".toList)
      (download_arxiv_pdf env st fs sid ref force).fs = none := by
  have hacq : acquire_lock fs (localPathOf env pid ++ ".lock".toList) =
      .ok (fsWrite (localPathOf env pid ++ ".lock".toList) [] fs) := by
    unfold acquire_lock
    rw [h4]
    rfl
  unfold download_arxiv_pdf
  rw [h1]
  dsimp only
  rw [h2]
  dsimp only
  rw [if_neg (by simp [h3])]
  rw [hacq]
  dsimp only
  cases hdr : (download_pdf env nurl (localPathOf env pid)
      (fsWrite (localPathOf env pid ++ ".lock".toList) [] fs)).1 with
  | ok sz =>
    dsimp only [release_lock]
    unfold fsRead fsRemove
    rw [alookup_aremove]
    exact if_pos rfl
  | error e =>
    dsimp only [release_lock]
    unfold fsRead fsRemove
    rw [alookup_aremove]
    exact if_pos rfl

/-- Witness for C9: forced re-download of `p1` whose body fails validation;
the lock file is gone afterwards. -/
theorem c9_witness :
    dlResolve wStore "s".toList (.int 1) wEnvBadBody.now =
      .ok ("p1".toList, "https://arxiv.org/pdf/p1".toList, wStore) ∧
    normalize_arxiv_pdf_url "https://arxiv.org/pdf/p1".toList =
      .ok "https://arxiv.org/pdf/p1.pdf".toList ∧
    ((fsRead (localPathOf wEnvBadBody "p1".toList) wFs).any (fun b => !b.isEmpty)
      && !true) = false ∧
    fsRead (localPathOf wEnvBadBody "p1".toList ++ ".lock".toList) wFs = none ∧
    fsRead (localPathOf wEnvBadBody "p1".toList ++ ".lock".toList)
      (download_arxiv_pdf wEnvBadBody wStore wFs "s".toList (.int 1) true).fs = none :=
  ⟨by decide, by decide, by decide, by decide,
    c9_lock_always_released wEnvBadBody wStore wFs "s".toList (.int 1) true "p1".toList
      "https://arxiv.org/pdf/p1".toList wStore "https://arxiv.org/pdf/p1.pdf".toList
      (by decide) (by decide) (by decide) (by decide)⟩

/-! ## Claim C2 (amended) and its counterexample -/

/-- C2 (amended): a slow-path download whose fetched body is smaller than
1024 bytes or lacks the `%PDF` magic propagates the validation error,
deletes the `.part` temp file, leaves the destination path's content
unchanged (in particular it creates no file there), and marks the asset
FAILED with a non-null error string. -/
theorem c2_validation_failure (env : DlEnv) (st : Store) (fs : FS) (sid : List Char)
    (ref : Ref) (force : Bool) (pid pu : List Char) (st1 : Store) (nurl : List Char)
    (body : List Nat)
    (h1 : dlResolve st sid ref env.now = .ok (pid, pu, st1))
    (h2 : normalize_arxiv_pdf_url pu = .ok nurl)
    (h3 : ((fsRead (localPathOf env pid) fs).any (fun b => !b.isEmpty) && !force) = false)
    (h4 : fsRead (localPathOf env pid ++ ".lock".toList) fs = none)
    (h5 : env.net nurl = some body)
    (h6 : body.length < 1024 ∨ looksLikePdfBytes body = false) :
    (download_arxiv_pdf env st fs sid ref force).result =
      .error (.notPdf "下载结果不像有效 PDF".toList) ∧
    fsRead (localPathOf env pid ++ ".part".toList)
      (download_arxiv_pdf env st fs sid ref force).fs = none ∧
    fsRead (localPathOf env pid) (download_arxiv_pdf env st fs sid ref force).fs =
      fsRead (localPathOf env pid) fs ∧
    (∃ a : PdfAsset,
      cacheGet pid (download_arxiv_pdf env st fs sid ref force).store.pdf_cache = some a ∧
      a.status = .FAILED ∧ a.error ≠ none) := by
  have hne1 : (localPathOf env pid ++ ".lock".toList) ≠
      (localPathOf env pid ++ ".part".toList) :=
    append_suffix_ne _ _ _ (by decide)
  have hne2 : (localPathOf env pid ++ ".lock".toList) ≠ localPathOf env pid :=
    Ne.symm (ne_append_of_ne_nil _ _ (by decide))
  have hne3 : (localPathOf env pid ++ ".part".toList) ≠ localPathOf env pid :=
    Ne.symm (ne_append_of_ne_nil _ _ (by decide))
  have hacq : acquire_lock fs (localPathOf env pid ++ ".lock".toList) =
      .ok (fsWrite (localPathOf env pid ++ ".lock".toList) [] fs) := by
    unfold acquire_lock
    rw [h4]
    rfl
  have hcond : body.length < 1024 ∨
      _looks_like_pdf (fsWrite (localPathOf env pid ++ ".part".toList) body
        (fsRemove (localPathOf env pid ++ ".part".toList)
          (fsWrite (localPathOf env pid ++ ".lock".toList) [] fs)))
        (localPathOf env pid ++ ".part".toList) = false := by
    rcases h6 with h | h
    · exact Or.inl h
    · right
      unfold _looks_like_pdf fsRead fsWrite
      rw [alookup_ainsert_self]
      exact h
  have hdl : download_pdf env nurl (localPathOf env pid)
      (fsWrite (localPathOf env pid ++ ".lock".toList) [] fs) =
      (.error (.notPdf "下载结果不像有效 PDF".toList),
       fsRemove (localPathOf env pid ++ ".part".toList)
         (fsWrite (localPathOf env pid ++ ".part".toList) body
           (fsRemove (localPathOf env pid ++ ".part".toList)
             (fsWrite (localPathOf env pid ++ ".lock".toList) [] fs)))) := by
    unfold download_pdf
    rw [h5]
    dsimp only
    rw [if_pos hcond]
  unfold download_arxiv_pdf
  rw [h1]
  dsimp only
  rw [h2]
  dsimp only
  rw [if_neg (by simp [h3])]
  rw [hacq]
  dsimp only
  rw [hdl]
  dsimp only [release_lock]
  refine ⟨rfl, ?_, ?_, ?_⟩
  · unfold fsRead fsRemove fsWrite
    rw [alookup_aremove, if_neg hne1, alookup_aremove]
    exact if_pos rfl
  · unfold fsRead fsRemove fsWrite
    rw [alookup_aremove, if_neg hne2, alookup_aremove, if_neg hne3,
      alookup_ainsert, if_neg hne3, alookup_aremove, if_neg hne3,
      alookup_ainsert, if_neg hne2]
  · cases ha : cacheGet pid (set_last_active_paper_id st1 sid pid env.now).pdf_cache with
    | none =>
      dsimp only
      refine ⟨{ paper_id := pid, pdf_url := nurl, local_path := localPathOf env pid,
                status := AssetStatus.FAILED, size_bytes := 0, sha256 := none,
                downloaded_at := none,
                error := some "下载结果不像有效 PDF".toList }, ?_, rfl, ?_⟩
      · unfold cacheGet cacheUpdate cacheUpsert
        dsimp only
        rw [alookup_ainsert_self]
        dsimp only
        exact alookup_ainsert_self _ _ _
      · dsimp only
        exact Option.some_ne_none _
    | some a =>
      dsimp only
      refine ⟨{ paper_id := a.paper_id, pdf_url := nurl,
                local_path := localPathOf env pid,
                status := AssetStatus.FAILED, size_bytes := a.size_bytes,
                sha256 := a.sha256, downloaded_at := a.downloaded_at,
                error := some "下载结果不像有效 PDF".toList }, ?_, rfl, ?_⟩
      · unfold cacheGet cacheUpdate
        unfold cacheGet at ha
        rw [ha]
        dsimp only
        rw [alookup_ainsert_self]
        dsimp only
        exact alookup_ainsert_self _ _ _
      · dsimp only
        exact Option.some_ne_none _

/-- Witness for the amended C2: forced re-download of `p1` returning a
3-byte non-PDF body. -/
theorem c2_witness :
    dlResolve wStore "s".toList (.int 1) wEnvBadBody.now =
      .ok ("p1".toList, "https://arxiv.org/pdf/p1".toList, wStore) ∧
    normalize_arxiv_pdf_url "https://arxiv.org/pdf/p1".toList =
      .ok "https://arxiv.org/pdf/p1.pdf".toList ∧
    ((fsRead (localPathOf wEnvBadBody "p1".toList) wFs).any (fun b => !b.isEmpty)
      && !true) = false ∧
    fsRead (localPathOf wEnvBadBody "p1".toList ++ ".lock".toList) wFs = none ∧
    wEnvBadBody.net "https://arxiv.org/pdf/p1.pdf".toList = some [1, 2, 3] ∧
    (([1, 2, 3] : List Nat).length < 1024 ∨ looksLikePdfBytes [1, 2, 3] = false) ∧
    ((download_arxiv_pdf wEnvBadBody wStore wFs "s".toList (.int 1) true).result =
        .error (.notPdf "下载结果不像有效 PDF".toList) ∧
      fsRead (localPathOf wEnvBadBody "p1".toList ++ ".part".toList)
        (download_arxiv_pdf wEnvBadBody wStore wFs "s".toList (.int 1) true).fs = none ∧
      fsRead (localPathOf wEnvBadBody "p1".toList)
          (download_arxiv_pdf wEnvBadBody wStore wFs "s".toList (.int 1) true).fs =
        fsRead (localPathOf wEnvBadBody "p1".toList) wFs ∧
      (∃ a : PdfAsset,
        cacheGet "p1".toList
          (download_arxiv_pdf wEnvBadBody wStore wFs "s".toList (.int 1) true).store.pdf_cache
            = some a ∧ a.status = .FAILED ∧ a.error ≠ none)) :=
  ⟨by decide, by decide, by decide, by decide, by decide, by decide,
    c2_validation_failure wEnvBadBody wStore wFs "s".toList (.int 1) true "p1".toList
      "https://arxiv.org/pdf/p1".toList wStore "https://arxiv.org/pdf/p1.pdf".toList
      [1, 2, 3] (by decide) (by decide) (by decide) (by decide) (by decide) (by decide)⟩

/-- Counterexample to C2 as frozen: a forced re-download of `p1` over an
existing destination file fetches a 3-byte body (below the 1024-byte
minimum), the validation error propagates — yet the old destination file
`raw/p1.pdf` is still present afterwards, so "no file is left at the
destination path" is false. -/
theorem c2_counterexample :
    wEnvBadBody.net "https://arxiv.org/pdf/p1.pdf".toList = some [1, 2, 3] ∧
    ([1, 2, 3] : List Nat).length < 1024 ∧
    (download_arxiv_pdf wEnvBadBody wStore wFs "s".toList (.int 1) true).result =
      .error (.notPdf "下载结果不像有效 PDF".toList) ∧
    fsRead "raw/p1.pdf".toList
      (download_arxiv_pdf wEnvBadBody wStore wFs "s".toList (.int 1) true).fs =
      some [9, 9, 9] :=
  ⟨by decide, by decide, by decide, by decide⟩

end AgenticArxiv
